import Mathlib

/-!
Verification development for the zero-config-website container engine.

Strings are modelled as `List Char` (`Str`) so that the character-level
operations of the source (trimming, splitting at the first `=`, substring
and suffix tests) are ordinary structural recursions.  Keys, values and
names are assumed to be single-line texts, matching the line-structured
credential file format.  Fallible Rust functions returning `Result` are
embedded as `Except Str`.  External engine responses (the Docker daemon)
are passed in as explicit outcome values; where a claim needs the daemon's
documented behaviour (error text for a missing container or a duplicate
network) a small explicitly-named model of that behaviour is provided.
-/

set_option autoImplicit false

namespace ZC

/-- Character strings, modelled as lists of characters. -/
abbrev Str := List Char

/-- Rust `str::starts_with`: `startsWithStr hay pre` is true when `pre` is an
initial segment of `hay`. -/
def startsWithStr : Str → Str → Bool
  | _, [] => true
  | [], _ :: _ => false
  | c :: cs, d :: ds => c = d && startsWithStr cs ds

/-- Rust `str::contains`: `containsStr needle hay` is true when `needle`
occurs as a contiguous substring of `hay`. -/
def containsStr (needle : Str) : Str → Bool
  | [] => startsWithStr [] needle
  | c :: cs => startsWithStr (c :: cs) needle || containsStr needle cs

/-- Rust `str::ends_with`: suffix test, via reversal. -/
def endsWithStr (hay suffix : Str) : Bool :=
  startsWithStr hay.reverse suffix.reverse

/-- Rust `str::trim`: drop whitespace from both ends. -/
def trimStr (s : Str) : Str :=
  ((s.dropWhile Char.isWhitespace).reverse.dropWhile Char.isWhitespace).reverse

/-- Rust `str::split_once('=')`: split at the first occurrence of `=`,
returning the parts before and after it, or `none` if absent. -/
def splitOnceEq : Str → Option (Str × Str)
  | [] => none
  | c :: cs =>
    if c = '=' then some ([], cs)
    else (splitOnceEq cs).map (fun p => (c :: p.1, p.2))

/-- Rust `str::trim_start_matches('/')`: drop every leading slash. -/
def trimLeadingSlashes (s : Str) : Str :=
  s.dropWhile (fun c => c = '/')

/-! ## Runtime discovery and selection (`runtime/container_runtime.rs`) -/

/-- The `ContainerRuntime` enum of supported engines. -/
inductive ContainerRuntime where
  | docker
  | podman
  | minikube
  | kubernetes
  | dockerCompose
  | containerd
  | criO
  | nerdctl
  | colima
deriving DecidableEq

/-- The fixed probe order of `detect_runtimes` (the `all_runtimes` vector). -/
def allRuntimes : List ContainerRuntime :=
  [.docker, .podman, .minikube, .kubernetes, .dockerCompose,
   .containerd, .criO, .nerdctl, .colima]

/-- Outcome of probing every runtime: which are installed (version command
succeeds) and which are running (status command succeeds). -/
structure Probe where
  installed : ContainerRuntime → Bool
  running : ContainerRuntime → Bool

/-- The preferred-runtime update performed inside the detection loop for one
installed runtime `r` when no preferred runtime is set yet: only the
`Docker` and `Podman` arms of the `match` can set it; every other runtime
falls into the `_ => {}` arm. -/
def prefUpdate (p : Probe) (r : ContainerRuntime) : Option ContainerRuntime :=
  match r with
  | .docker => if p.running .docker then some .docker else none
  | .podman => if p.running .podman then some .podman else none
  | _ => none

/-- The body of the `for runtime in all_runtimes` loop of `detect_runtimes`,
threading the `available_runtimes` vector and the `preferred_runtime`
option through the remaining runtimes to probe. -/
def detectLoop (p : Probe) :
    List ContainerRuntime → List ContainerRuntime × Option ContainerRuntime →
    List ContainerRuntime × Option ContainerRuntime
  | [], acc => acc
  | r :: rest, (avail, pref) =>
    if p.installed r then
      detectLoop p rest
        (avail ++ [r], if pref.isNone then prefUpdate p r else pref)
    else
      detectLoop p rest (avail, pref)

/-- The effect of one loop iteration on the preferred-runtime option alone
(the loop updates the available list and the preferred option
independently). -/
def prefStep (p : Probe) (q : Option ContainerRuntime) (r : ContainerRuntime) :
    Option ContainerRuntime :=
  if p.installed r then (if q.isNone then prefUpdate p r else q) else q

/-- The error message of `detect_runtimes` when no runtime is installed. -/
def noRuntimeMsg : Str :=
  String.toList "No container runtime found. Please install Docker, Podman, or another container runtime."

/-- `ContainerRuntimeManager::detect_runtimes` followed by
`get_preferred_runtime`: run the probe loop over `allRuntimes`; fail when
nothing is installed; otherwise the preferred runtime is the one chosen in
the loop, falling back to the first available runtime. -/
def detect_runtimes (p : Probe) : Except Str ContainerRuntime :=
  let res := detectLoop p allRuntimes ([], none)
  match res.1, res.2 with
  | [], _ => .error noRuntimeMsg
  | first :: _, pref => .ok (pref.getD first)

/-- Stated from the spec sentence of C1, for comparison with
`detect_runtimes`: the first engine in priority order that is both
installed and running; else the first installed engine; else none. -/
def specPreferred (p : Probe) : Option ContainerRuntime :=
  match allRuntimes.find? (fun r => p.installed r && p.running r) with
  | some r => some r
  | none => allRuntimes.find? (fun r => p.installed r)

/-- The selection policy the code actually implements (the amended claim):
Docker when installed and running, else Podman when installed and running,
else the first installed engine in probe order. -/
def codePreferred (p : Probe) : Option ContainerRuntime :=
  if p.installed .docker && p.running .docker then some .docker
  else if p.installed .podman && p.running .podman then some .podman
  else allRuntimes.find? (fun r => p.installed r)

/-! ## Credential store (`secrets/mod.rs`) -/

/-- The in-memory credential map of `CredentialStore` (a `HashMap` in the
source); keys are unique along the list. -/
abbrev Creds := List (Str × Str)

/-- Lookup in the credential map (`HashMap::get`). -/
def getCred : Creds → Str → Option Str
  | [], _ => none
  | (k, v) :: rest, key => if k = key then some v else getCred rest key

/-- Insertion into the credential map (`HashMap::insert`): replace the value
of an existing key, else append the new pair. -/
def insertCred : Creds → Str → Str → Creds
  | [], k, v => [(k, v)]
  | (k₀, v₀) :: rest, k, v =>
    if k₀ = k then (k₀, v) :: rest else (k₀, v₀) :: insertCred rest k v

/-- `CredentialStore::get_or_generate`: return the stored value when the key
is present, else invoke the generator, insert the result into the in-memory
map and return it.  No file access happens here. -/
def get_or_generate (m : Creds) (key : Str) (gen : Unit → Str) : Str × Creds :=
  match getCred m key with
  | some v => (v, m)
  | none =>
    let v := gen ()
    (v, insertCred m key v)

/-- First header line written by `CredentialStore::save`. -/
def header₁ : Str := String.toList "# ZeroConfig Generated Credentials"

/-- Second header line written by `CredentialStore::save`. -/
def header₂ : Str := String.toList "# DO NOT COMMIT THIS FILE TO VERSION CONTROL"

/-- The lines of the file `CredentialStore::save` writes: two comment
header lines, a blank line (from the trailing double newline of the header
text), then one `key=value` line per stored credential. -/
def saveLines (m : Creds) : List Str :=
  header₁ :: header₂ :: [] :: m.map (fun p => p.1 ++ '=' :: p.2)

/-- Processing of one line by `CredentialStore::load`: trim it, skip blank
and `#`-comment lines, split the rest at the first `=` (lines without `=`
are skipped) and insert the pair. -/
def loadLine (m : Creds) (line : Str) : Creds :=
  let l := trimStr line
  if l = [] then m
  else if l.head? = some '#' then m
  else
    match splitOnceEq l with
    | some (k, v) => insertCred m k v
    | none => m

/-- `CredentialStore::load` applied to the lines of an existing file. -/
def loadLines (m : Creds) (lines : List Str) : Creds :=
  lines.foldl loadLine m

/-- A credential store together with the on-disk credential file it is
attached to (`none` when the file does not exist). -/
structure StoreState where
  creds : Creds
  file : Option (List Str)

/-- `CredentialStore::get_or_generate` as an operation on the combined
store-plus-file state: only the in-memory map changes. -/
def getOrGenerateS (s : StoreState) (key : Str) (gen : Unit → Str) :
    Str × StoreState :=
  let r := get_or_generate s.creds key gen
  (r.1, { s with creds := r.2 })

/-- `CredentialStore::save` on the combined state: overwrite the file with
the rendered credential map. -/
def saveS (s : StoreState) : StoreState :=
  { s with file := some (saveLines s.creds) }

/-- The value the on-disk file holds for a key, as recovered by a freshly
constructed store (`new` then `load`): `none` when the file is absent. -/
def persisted (s : StoreState) (key : Str) : Option Str :=
  match s.file with
  | none => none
  | some ls => getCred (loadLines [] ls) key

/-- Well-formedness of a credential key, sufficient for the line format to
round-trip: nonempty, no whitespace, no `=`, and not starting with `#`.
Generated credentials (alphanumeric strings) satisfy this whenever the
service name does. -/
def wfKey (k : Str) : Prop :=
  k ≠ [] ∧ (∀ c ∈ k, c.isWhitespace = false ∧ c ≠ '=') ∧ k.head? ≠ some '#'

/-- Well-formedness of a credential value: whitespace-free (generated
credentials are alphanumeric).  A value may contain `=`. -/
def wfVal (v : Str) : Prop :=
  ∀ c ∈ v, c.isWhitespace = false

/-! ## Container orchestrator (`orchestrator/mod.rs`) -/

/-- Container naming used by `start_service`, `stop_service` and
`remove_container`: the Rust expression
`format!("{}_{}", self.project_name, service_name)`. -/
def container_name (project service : Str) : Str :=
  project ++ '_' :: service

/-- Network naming fixed at orchestrator construction:
`format!("zeroconfig_{}", project_name)`. -/
def network_name (project : Str) : Str :=
  String.toList "zeroconfig_" ++ project

/-- The name-matching test of `get_container_id`: exact equality with the
requested service name, or the container name ending in `-{service}`. -/
def matchesService (containerName service : Str) : Bool :=
  containerName = service || endsWithStr containerName ('-' :: service)

/-- One entry of the engine's container listing: the name list reported by
the engine (names carry a leading slash) and the optional container id. -/
structure ContainerEntry where
  names : List Str
  id : Option Str

/-- Error message of `get_container_id` when no container matches. -/
def notFoundMsg (service : Str) : Str :=
  String.toList "Service " ++ service ++ String.toList " not found or not running"

/-- Error message of `get_container_id` when the matching entry has no id. -/
def noIdMsg : Str := String.toList "Container has no ID"

/-- `ContainerOrchestrator::get_container_id`: scan the project's container
listing; the first entry one of whose slash-trimmed names passes
`matchesService` yields its id (an entry without id is an error); when
nothing matches, fail with the not-found error. -/
def get_container_id (containers : List ContainerEntry) (service : Str) :
    Except Str Str :=
  match containers with
  | [] => .error (notFoundMsg service)
  | c :: rest =>
    match c.names.find? (fun n => matchesService (trimLeadingSlashes n) service) with
    | some _ =>
      match c.id with
      | some i => .ok i
      | none => .error noIdMsg
    | none => get_container_id rest service

/-- Response of the container engine to a lifecycle request. -/
inductive EngineResp where
  | ok
  | err (msg : Str)

/-- Modelled external behaviour of the Docker daemon for a stop request:
stopping a listed container succeeds; stopping an absent one fails with an
error whose text contains "No such container". -/
def dockerStop (containers : List Str) (name : Str) : EngineResp :=
  if containers.contains name then .ok
  else .err (String.toList "No such container: " ++ name)

/-- `ContainerOrchestrator::stop_service`: stop the deterministically named
container; treat a "No such container" error as success; propagate any
other engine error with context. -/
def stop_service (containers : List Str) (project service : Str) :
    Except Str Unit :=
  match dockerStop containers (container_name project service) with
  | .ok => .ok ()
  | .err e =>
    if containsStr (String.toList "No such container") e then .ok ()
    else .error (String.toList "Failed to stop container: " ++ e)

/-- `ContainerOrchestrator::restart_service`: resolve the container id via
`get_container_id` (propagating its failure), then stop and start that
container by id; both engine calls are given as outcomes. -/
def restart_service (containers : List ContainerEntry) (service : Str)
    (stopResp startResp : EngineResp) : Except Str Unit := do
  let _ ← get_container_id containers service
  match stopResp with
  | .err e => .error (String.toList "Failed to stop container: " ++ e)
  | .ok =>
    match startResp with
    | .err e => .error (String.toList "Failed to start container: " ++ e)
    | .ok => .ok ()

/-- Modelled external behaviour of the Docker daemon for network creation
with `check_duplicate`: creating an existing network fails with an error
whose text contains "already exists"; otherwise the network is added. -/
def dockerCreateNetwork (networks : List Str) (name : Str) :
    EngineResp × List Str :=
  if networks.contains name then
    (.err (String.toList "network with name " ++ name ++
      String.toList " already exists"), networks)
  else (.ok, networks ++ [name])

/-- The error handling of `ContainerOrchestrator::create_network`: success
passes through, an "already exists" error is success, anything else is a
network-creation failure with context. -/
def handleCreateNetwork (resp : EngineResp) : Except Str Unit :=
  match resp with
  | .ok => .ok ()
  | .err e =>
    if containsStr (String.toList "already exists") e then .ok ()
    else .error (String.toList "Failed to create Docker network: " ++ e)

/-- `ContainerOrchestrator::create_network` against the modelled daemon:
request creation of the project network and apply the source's error
handling; returns the result together with the daemon's network state. -/
def create_network (networks : List Str) (project : Str) :
    Except Str Unit × List Str :=
  let r := dockerCreateNetwork networks (network_name project)
  (handleCreateNetwork r.1, r.2)

/-- Keys synthesized by `get_service_env_vars`:
`format!("{}_POSTGRES_PASSWORD", service_name)` and its analogues. -/
def serviceKey (service : Str) (suffix : Str) : Str :=
  service ++ suffix

/-- `ContainerOrchestrator::get_service_env_vars` for the recognized service
types: fetch or generate the service password through the credential store,
then immediately persist the store with `save`, and return the synthesized
environment entries.  Unrecognized services yield no entries and leave the
store untouched.  The random password generator is passed in as `gen`. -/
def get_service_env_vars (s : StoreState) (service : Str)
    (gen : Unit → Str) : List Str × StoreState :=
  if service = String.toList "postgres" then
    let r := getOrGenerateS s (serviceKey service (String.toList "_POSTGRES_PASSWORD")) gen
    ([String.toList "POSTGRES_PASSWORD=" ++ r.1,
      String.toList "POSTGRES_USER=zeroconfig",
      String.toList "POSTGRES_DB=zeroconfig"], saveS r.2)
  else if service = String.toList "mysql" then
    let r := getOrGenerateS s (serviceKey service (String.toList "_MYSQL_ROOT_PASSWORD")) gen
    ([String.toList "MYSQL_ROOT_PASSWORD=" ++ r.1,
      String.toList "MYSQL_DATABASE=zeroconfig"], saveS r.2)
  else if service = String.toList "mongodb" ∨ service = String.toList "mongo" then
    let r := getOrGenerateS s (serviceKey service (String.toList "_MONGO_INITDB_ROOT_PASSWORD")) gen
    ([String.toList "MONGO_INITDB_ROOT_USERNAME=zeroconfig",
      String.toList "MONGO_INITDB_ROOT_PASSWORD=" ++ r.1], saveS r.2)
  else if service = String.toList "rabbitmq" then
    let r := getOrGenerateS s (serviceKey service (String.toList "_RABBITMQ_DEFAULT_PASS")) gen
    ([String.toList "RABBITMQ_DEFAULT_USER=zeroconfig",
      String.toList "RABBITMQ_DEFAULT_PASS=" ++ r.1], saveS r.2)
  else ([], s)

/-! ## Engine coordinator (`core/mod.rs`) -/

/-- The port allocation map of the `Engine` (`HashMap<String, u16>` in the
source).  Port values are naturals kept below 2^16 by the explicit
wrap-around in `allocateFrom`, mirroring the source's `u16` counter. -/
abbrev Ports := List (Str × Nat)

/-- Lookup in the allocation map. -/
def getPort : Ports → Str → Option Nat
  | [], _ => none
  | (k, v) :: rest, key => if k = key then some v else getPort rest key

/-- Insertion into the allocation map (`HashMap::insert`). -/
def insertPort : Ports → Str → Nat → Ports
  | [], k, v => [(k, v)]
  | (k₀, v₀) :: rest, k, v =>
    if k₀ = k then (k₀, v) :: rest else (k₀, v₀) :: insertPort rest k v

/-- The loop of `Engine::allocate_ports` starting from counter value
`base`: assign the current counter to the first declared service, then
continue with the incremented counter, inserting into the existing
allocation map.  The counter is a `u16` in the source, so the increment
wraps modulo 2^16 — the release-build two's-complement behaviour (a debug
build instead panics on the overflowing increment). -/
def allocateFrom (base : Nat) (services : List Str) (m : Ports) : Ports :=
  match services with
  | [] => m
  | name :: rest =>
    allocateFrom ((base + 1) % 65536) rest (insertPort m name base)

/-- `Engine::allocate_ports`: walk the declared services in configuration
order, handing out consecutive host ports starting at 5000 with the
`u16` counter wrapping modulo 2^16. -/
def allocate_ports (services : List Str) (m : Ports) : Ports :=
  allocateFrom 5000 services m

/-- Binary rendering of a natural number as a string of `0`/`1`
characters, used to build an explicit family of pairwise distinct service
names for the port-wrap counterexample. -/
def bitChars (n : Nat) : List Char :=
  (Nat.digits 2 n).map (fun d => if d = 1 then '1' else '0')

/-- An explicit configuration with 60537 pairwise distinct declared
service names, enough to wrap the `u16` port counter past 65535. -/
def cexServiceNames : List Str :=
  (List.range 60537).map (fun i => 's' :: bitChars i)

/-! ## Health checker (`health/mod.rs`) -/

/-- The fields of `HealthStatus` the claims are about; wall-clock latency
and timestamp are not modelled. -/
structure HealthSt where
  service_name : Str
  is_healthy : Bool
  status_message : Str
deriving DecidableEq

/-- Outcome of `inspect_container`: either the inspection error, or the
container state as the formatted status string (`none` when the engine
reports no status, rendered "Unknown") together with the optional native
health block and its optional formatted status string. -/
inductive Inspection where
  | failed (e : Str)
  | ok (status : Option Str) (health : Option (Option Str))

/-- Outcome of the exec probe issued by `perform_service_health_check`:
creation or start of the exec can fail, an attached exec yields the
accumulated output text, and a non-attached start yields nothing. -/
inductive ExecOutcome where
  | failure (e : Str)
  | attached (output : Str)
  | detached

/-- The health probe command table of `get_health_command`, keyed by
substring match on the service name; unknown services get no command. -/
def get_health_command (service : Str) : List (List Char) :=
  if containsStr (String.toList "postgres") service then
    [String.toList "pg_isready", String.toList "-U", String.toList "postgres"]
  else if containsStr (String.toList "redis") service then
    [String.toList "redis-cli", String.toList "ping"]
  else if containsStr (String.toList "mongo") service then
    [String.toList "mongosh", String.toList "--eval",
     String.toList "db.adminCommand(..ping..)"]
  else if containsStr (String.toList "mysql") service then
    [String.toList "mysqladmin", String.toList "ping", String.toList "-h",
     String.toList "localhost"]
  else if containsStr (String.toList "rabbitmq") service then
    [String.toList "rabbitmq-diagnostics", String.toList "ping"]
  else if containsStr (String.toList "elasticsearch") service then
    [String.toList "curl", String.toList "-f",
     String.toList "http://localhost:9200/_cluster/health"]
  else []

/-- `HealthChecker::perform_service_health_check`: with no probe command the
service counts as running; otherwise run the probe, report "Healthy" when
the output carries a success marker, any other completed probe as
"Running", and propagate exec errors. -/
def perform_service_health_check (service : Str) (exec : ExecOutcome) :
    Except Str Str :=
  if get_health_command service = [] then
    .ok (String.toList "Running (no health check available)")
  else
    match exec with
    | .failure e => .error e
    | .attached out =>
      if containsStr (String.toList "accepting connections") out ||
          containsStr (String.toList "ready") out then
        .ok (String.toList "Healthy")
      else .ok (String.toList "Running")
    | .detached => .ok (String.toList "Running")

/-- `HealthChecker::check_container`: inspection failure yields an unhealthy
status carrying the error text; a non-running state yields the not-running
status before any health information is consulted; a native health status
is mapped directly; otherwise the service-specific probe decides, its
failure text again encoded in the returned status.  Every branch returns
`Ok`. -/
def check_container (service : Str) (insp : Inspection) (exec : ExecOutcome) :
    Except Str HealthSt :=
  match insp with
  | .failed e =>
    .ok ⟨service, false, String.toList "Failed to inspect container: " ++ e⟩
  | .ok status health =>
    if status.getD (String.toList "Unknown") ≠ String.toList "Running" then
      .ok ⟨service, false, String.toList "Container not running: " ++
        status.getD (String.toList "Unknown")⟩
    else
      match health with
      | some hstatus =>
        .ok ⟨service,
          hstatus.getD (String.toList "Unknown") = String.toList "Healthy",
          hstatus.getD (String.toList "Unknown")⟩
      | none =>
        match perform_service_health_check service exec with
        | .ok msg => .ok ⟨service, true, msg⟩
        | .error e =>
          .ok ⟨service, false, String.toList "Health check failed: " ++ e⟩

/-- Result of the polling loop of `wait_for_healthy`, recording how many
polls were issued. -/
inductive WaitResult where
  | healthy (st : HealthSt) (polls : Nat)
  | timedOut (polls : Nat)
deriving DecidableEq

/-- The timeout error message of `wait_for_healthy`. -/
def timeoutMsg (service : Str) : Str :=
  String.toList "Timeout waiting for " ++ service ++
    String.toList " to become healthy"

/-- The polling loop of `wait_for_healthy`.  `checks i` is the status the
`i`-th `check_container` call returns; time is modelled in seconds with
checks instantaneous, so elapsed time at poll `i` is the `2 * i` seconds
spent in the fixed two-second sleeps.  The loop returns on a healthy
status, and bails once elapsed time strictly exceeds the timeout. -/
def waitLoop (checks : Nat → HealthSt) (timeout : Nat) (i : Nat) : WaitResult :=
  let st := checks i
  if st.is_healthy then .healthy st (i + 1)
  else if 2 * i > timeout then .timedOut (i + 1)
  else waitLoop checks timeout (i + 1)
termination_by timeout + 1 - 2 * i
decreasing_by omega

/-- `HealthChecker::wait_for_healthy`: run the polling loop from elapsed
time zero; a healthy poll yields its status, the deadline yields the
timeout error. -/
def wait_for_healthy (service : Str) (checks : Nat → HealthSt)
    (timeout : Nat) : Except Str HealthSt :=
  match waitLoop checks timeout 0 with
  | .healthy st _ => .ok st
  | .timedOut _ => .error (timeoutMsg service)

/-! ## Supporting lemmas: string operations -/

theorem startsWithStr_append_self (a rest : Str) :
    startsWithStr (a ++ rest) a = true := by
  induction a with
  | nil => cases rest <;> rfl
  | cons c cs ih => simp [startsWithStr, ih]

theorem containsStr_of_startsWith (needle hay : Str)
    (h : startsWithStr hay needle = true) : containsStr needle hay = true := by
  cases hay with
  | nil => simpa [containsStr] using h
  | cons c cs => simp [containsStr, h]

theorem containsStr_append_right (pre needle : Str) :
    containsStr needle (pre ++ needle) = true := by
  induction pre with
  | nil =>
    refine containsStr_of_startsWith _ _ ?_
    simpa using startsWithStr_append_self needle []
  | cons c cs ih => simp [containsStr, ih]

theorem dropWhile_eq_self_of (p : Char → Bool) (l : Str)
    (h : ∀ c ∈ l, p c = false) : l.dropWhile p = l := by
  cases l with
  | nil => rfl
  | cons c cs => simp [List.dropWhile_cons, h c (List.mem_cons_self c cs)]

theorem trimStr_of_noWs (l : Str) (h : ∀ c ∈ l, c.isWhitespace = false) :
    trimStr l = l := by
  unfold trimStr
  rw [dropWhile_eq_self_of _ _ h,
    dropWhile_eq_self_of _ _ (fun c hc => h c (List.mem_reverse.mp hc)),
    List.reverse_reverse]

theorem splitOnceEq_append (k v : Str) (h : '=' ∉ k) :
    splitOnceEq (k ++ '=' :: v) = some (k, v) := by
  induction k with
  | nil => simp [splitOnceEq]
  | cons c cs ih =>
    have hc : ¬(c = '=') := fun e => h (e ▸ List.mem_cons_self c cs)
    simp [splitOnceEq, hc, ih (fun hm => h (List.mem_cons_of_mem _ hm))]

/-! ## Supporting lemmas: the credential map -/

theorem getCred_some_mem {m : Creds} {k v : Str} (h : getCred m k = some v) :
    (k, v) ∈ m := by
  induction m with
  | nil => simp [getCred] at h
  | cons p rest ih =>
    obtain ⟨k₀, v₀⟩ := p
    by_cases hk : k₀ = k
    · subst hk
      simp [getCred] at h
      simp [h]
    · simp [getCred, hk] at h
      exact List.mem_cons_of_mem _ (ih h)

theorem mem_insertCred_self (m : Creds) (k v : Str) :
    (k, v) ∈ insertCred m k v := by
  induction m with
  | nil => simp [insertCred]
  | cons p rest ih =>
    obtain ⟨k₀, v₀⟩ := p
    by_cases hk : k₀ = k
    · subst hk; simp [insertCred]
    · simp only [insertCred, if_neg hk]
      exact List.mem_cons_of_mem _ ih

theorem getCred_insertCred_self (m : Creds) (k v : Str) :
    getCred (insertCred m k v) k = some v := by
  induction m with
  | nil => simp [insertCred, getCred]
  | cons p rest ih =>
    obtain ⟨k₀, v₀⟩ := p
    by_cases hk : k₀ = k
    · subst hk; simp [insertCred, getCred]
    · simp [insertCred, hk, getCred, ih]

theorem mem_insertCred_elim {m : Creds} {k v : Str} {p : Str × Str}
    (h : p ∈ insertCred m k v) : p ∈ m ∨ p = (k, v) := by
  induction m with
  | nil => simp [insertCred] at h; simp [h]
  | cons q rest ih =>
    obtain ⟨k₀, v₀⟩ := q
    by_cases hk : k₀ = k
    · subst hk
      simp only [insertCred, if_pos rfl] at h
      rcases List.mem_cons.mp h with h | h
      · right; simpa using h
      · left; exact List.mem_cons_of_mem _ h
    · simp only [insertCred, if_neg hk] at h
      rcases List.mem_cons.mp h with h | h
      · left; simp [h]
      · rcases ih h with h | h
        · left; exact List.mem_cons_of_mem _ h
        · right; exact h

theorem keys_insertCred_sub {m : Creds} {k v a : Str}
    (h : a ∈ (insertCred m k v).map Prod.fst) :
    a ∈ m.map Prod.fst ∨ a = k := by
  rcases List.mem_map.mp h with ⟨p, hp, rfl⟩
  rcases mem_insertCred_elim hp with h | h
  · exact Or.inl (List.mem_map.mpr ⟨p, h, rfl⟩)
  · subst h; exact Or.inr rfl

theorem nodup_keys_insertCred (m : Creds) (k v : Str)
    (h : (m.map Prod.fst).Nodup) :
    ((insertCred m k v).map Prod.fst).Nodup := by
  induction m with
  | nil => simp [insertCred]
  | cons p rest ih =>
    obtain ⟨k₀, v₀⟩ := p
    rw [List.map_cons, List.nodup_cons] at h
    by_cases hk : k₀ = k
    · subst hk
      simpa [insertCred, List.nodup_cons] using h
    · simp only [insertCred, if_neg hk, List.map_cons, List.nodup_cons]
      refine ⟨fun hmem => ?_, ih h.2⟩
      rcases keys_insertCred_sub hmem with hmem | hmem
      · exact h.1 hmem
      · exact hk hmem

theorem insertCred_of_notMem (m : Creds) (k v : Str)
    (h : k ∉ m.map Prod.fst) : insertCred m k v = m ++ [(k, v)] := by
  induction m with
  | nil => simp [insertCred]
  | cons p rest ih =>
    obtain ⟨k₀, v₀⟩ := p
    simp only [List.map_cons, List.mem_cons] at h
    push_neg at h
    simp [insertCred, Ne.symm h.1, ih h.2]

theorem foldl_insertCred_append :
    ∀ (m acc : Creds), ((acc ++ m).map Prod.fst).Nodup →
      m.foldl (fun a p => insertCred a p.1 p.2) acc = acc ++ m := by
  intro m
  induction m with
  | nil => simp
  | cons p rest ih =>
    intro acc h
    have hp : p.1 ∉ acc.map Prod.fst := by
      rw [List.map_append, List.nodup_append] at h
      intro hmem
      exact h.2.2 hmem (by simp)
    rw [List.foldl_cons, insertCred_of_notMem _ _ _ hp]
    have hperm : (acc ++ [(p.1, p.2)]) ++ rest = acc ++ p :: rest := by
      simp [List.append_assoc]
    rw [ih (acc ++ [(p.1, p.2)]) (by rw [hperm]; exact h), hperm]

/-! ## Supporting lemmas: credential file round trip -/

theorem loadLine_skip (acc : Creds) (line : Str)
    (h : trimStr line = [] ∨ (trimStr line).head? = some '#') :
    loadLine acc line = acc := by
  rcases h with h | h
  · simp [loadLine, h]
  · have hne : ¬(trimStr line = []) := by
      intro he; rw [he] at h; simp at h
    simp [loadLine, hne, h]

theorem loadLine_pair (acc : Creds) (k v : Str) (hk : wfKey k) (hv : wfVal v) :
    loadLine acc (k ++ '=' :: v) = insertCred acc k v := by
  have hno : ∀ c ∈ k ++ '=' :: v, c.isWhitespace = false := by
    intro c hc
    rcases List.mem_append.mp hc with hc | hc
    · exact (hk.2.1 c hc).1
    · rcases List.mem_cons.mp hc with hc | hc
      · subst hc; decide
      · exact hv c hc
  have ht : trimStr (k ++ '=' :: v) = k ++ '=' :: v := trimStr_of_noWs _ hno
  obtain ⟨c₀, k₀, rfl⟩ : ∃ c₀ k₀, k = c₀ :: k₀ := by
    cases k with
    | nil => exact absurd rfl hk.1
    | cons c₀ k₀ => exact ⟨c₀, k₀, rfl⟩
  have hne : ¬((c₀ :: k₀) ++ '=' :: v = []) := by simp
  have hhash : ¬(((c₀ :: k₀) ++ '=' :: v).head? = some '#') := by
    simpa using hk.2.2
  have hsplit : splitOnceEq ((c₀ :: k₀) ++ '=' :: v) = some (c₀ :: k₀, v) :=
    splitOnceEq_append _ _ (by
      intro hmem
      exact (hk.2.1 _ hmem).2 rfl)
  simp only [List.cons_append] at ht hne hhash hsplit
  have hc₀ : ¬(c₀ = '#') := by simpa using hhash
  simp [loadLine, ht, hne, hc₀, hsplit]

theorem foldl_loadLine_pairs :
    ∀ (m acc : Creds), (∀ p ∈ m, wfKey p.1 ∧ wfVal p.2) →
      (m.map (fun p => p.1 ++ '=' :: p.2)).foldl loadLine acc =
        m.foldl (fun a p => insertCred a p.1 p.2) acc := by
  intro m
  induction m with
  | nil => intro acc _; rfl
  | cons p rest ih =>
    intro acc h
    have hp := h p (List.mem_cons_self p rest)
    rw [List.map_cons, List.foldl_cons, List.foldl_cons,
      loadLine_pair acc p.1 p.2 hp.1 hp.2]
    exact ih _ (fun q hq => h q (List.mem_cons_of_mem _ hq))

theorem loadLines_saveLines (m : Creds) (hnd : (m.map Prod.fst).Nodup)
    (hwf : ∀ p ∈ m, wfKey p.1 ∧ wfVal p.2) :
    loadLines [] (saveLines m) = m := by
  unfold loadLines saveLines
  rw [List.foldl_cons, List.foldl_cons, List.foldl_cons,
    loadLine_skip _ header₁ (Or.inr (by decide)),
    loadLine_skip _ header₂ (Or.inr (by decide)),
    loadLine_skip _ [] (Or.inl rfl),
    foldl_loadLine_pairs m [] hwf]
  simpa using foldl_insertCred_append m [] (by simpa using hnd)

/-- The value returned by `get_or_generate` is what the updated in-memory
map holds for the key afterwards. -/
theorem getCred_after_get_or_generate (m : Creds) (key : Str)
    (gen : Unit → Str) :
    getCred (get_or_generate m key gen).2 key =
      some (get_or_generate m key gen).1 := by
  unfold get_or_generate
  cases h : getCred m key with
  | some v => simp [h]
  | none => simp [h, getCred_insertCred_self]

/-- The pair produced or found by `get_or_generate` is in the updated map. -/
theorem get_or_generate_pair_mem (m : Creds) (key : Str) (gen : Unit → Str) :
    (key, (get_or_generate m key gen).1) ∈ (get_or_generate m key gen).2 := by
  unfold get_or_generate
  cases h : getCred m key with
  | some v => simpa using getCred_some_mem h
  | none => simpa using mem_insertCred_self m key (gen ())

/-! ## Supporting lemmas: port allocation -/

theorem getPort_insertPort_self (m : Ports) (k : Str) (v : Nat) :
    getPort (insertPort m k v) k = some v := by
  induction m with
  | nil => simp [insertPort, getPort]
  | cons p rest ih =>
    obtain ⟨k₀, v₀⟩ := p
    by_cases hk : k₀ = k
    · subst hk; simp [insertPort, getPort]
    · simp [insertPort, hk, getPort, ih]

theorem getPort_insertPort_ne (m : Ports) (k : Str) (v : Nat) (k₂ : Str)
    (h : ¬(k = k₂)) : getPort (insertPort m k v) k₂ = getPort m k₂ := by
  induction m with
  | nil => simp [insertPort, getPort, h]
  | cons p rest ih =>
    obtain ⟨k₀, v₀⟩ := p
    by_cases hk : k₀ = k
    · subst hk; simp [insertPort, getPort, h]
    · simp [insertPort, hk, getPort, ih]

theorem getPort_allocateFrom_of_notMem (base : Nat) (services : List Str)
    (m : Ports) (n : Str) (h : n ∉ services) :
    getPort (allocateFrom base services m) n = getPort m n := by
  induction services generalizing base m with
  | nil => rfl
  | cons name rest ih =>
    rw [allocateFrom, ih _ _ (fun hm => h (List.mem_cons_of_mem _ hm)),
      getPort_insertPort_ne]
    intro e
    exact h (e ▸ List.mem_cons_self name rest)

theorem allocateFrom_get (services : List Str) (hnd : services.Nodup) :
    ∀ (base : Nat) (m : Ports), base < 65536 →
      ∀ i (h : i < services.length),
        getPort (allocateFrom base services m) (services.get ⟨i, h⟩) =
          some ((base + i) % 65536) := by
  induction services with
  | nil => intro base m hb i h; simp at h
  | cons name rest ih =>
    rw [List.nodup_cons] at hnd
    intro base m hb i h
    cases i with
    | zero =>
      simp only [List.get]
      rw [allocateFrom, getPort_allocateFrom_of_notMem _ _ _ _ hnd.1,
        getPort_insertPort_self, Nat.add_zero, Nat.mod_eq_of_lt hb]
    | succ j =>
      have hj : j < rest.length := by simpa using h
      rw [allocateFrom]
      have hb₂ : (base + 1) % 65536 < 65536 := Nat.mod_lt _ (by omega)
      have hrec := ih hnd.2 ((base + 1) % 65536)
        (insertPort m name base) hb₂ j hj
      simp only [List.get] at hrec ⊢
      rw [hrec, Nat.mod_add_mod]
      have harith : base + 1 + j = base + (j + 1) := by omega
      rw [harith]

/-- Characters produced by `bitChars` determine the binary digit list. -/
theorem map01_inj : ∀ (l₁ l₂ : List Nat), (∀ x ∈ l₁, x < 2) →
    (∀ x ∈ l₂, x < 2) →
    l₁.map (fun d => if d = 1 then '1' else '0') =
      l₂.map (fun d => if d = 1 then '1' else '0') → l₁ = l₂ := by
  intro l₁
  induction l₁ with
  | nil =>
    intro l₂ _ _ h
    cases l₂ with
    | nil => rfl
    | cons b bs => simp at h
  | cons a as ih =>
    intro l₂ h₁ h₂ h
    cases l₂ with
    | nil => simp at h
    | cons b bs =>
      simp only [List.map_cons, List.cons.injEq] at h
      have ha : a < 2 := h₁ a (List.mem_cons_self a as)
      have hb : b < 2 := h₂ b (List.mem_cons_self b bs)
      have hab : a = b := by
        rcases (by omega : a = 0 ∨ a = 1) with rfl | rfl <;>
          rcases (by omega : b = 0 ∨ b = 1) with rfl | rfl <;>
            first
            | rfl
            | exact absurd h.1 (by decide)
      subst hab
      rw [ih bs (fun x hx => h₁ x (List.mem_cons_of_mem _ hx))
        (fun x hx => h₂ x (List.mem_cons_of_mem _ hx)) h.2]


/-! ## Supporting lemmas: runtime discovery -/

theorem detectLoop_eq (p : Probe) (l : List ContainerRuntime)
    (a : List ContainerRuntime) (q : Option ContainerRuntime) :
    detectLoop p l (a, q) =
      (a ++ l.filter (fun r => p.installed r), l.foldl (prefStep p) q) := by
  induction l generalizing a q with
  | nil => simp [detectLoop]
  | cons r rest ih =>
    by_cases h : p.installed r
    · simp [detectLoop, h, ih, prefStep, List.filter_cons]
    · simp [detectLoop, h, ih, prefStep, List.filter_cons]

theorem prefStep_some (p : Probe) (v : ContainerRuntime)
    (r : ContainerRuntime) : prefStep p (some v) r = some v := by
  by_cases h : p.installed r <;> simp [prefStep, h]

theorem foldl_prefStep_some (p : Probe) (v : ContainerRuntime)
    (l : List ContainerRuntime) : l.foldl (prefStep p) (some v) = some v := by
  induction l with
  | nil => rfl
  | cons r rest ih => simp [List.foldl_cons, prefStep_some, ih]

theorem prefStep_other (p : Probe) (q : Option ContainerRuntime)
    (r : ContainerRuntime) (h : prefUpdate p r = none) :
    prefStep p q r = q := by
  by_cases hi : p.installed r <;> cases q <;> simp [prefStep, hi, h]

theorem foldl_prefStep_allRuntimes (p : Probe) :
    allRuntimes.foldl (prefStep p) none =
      (if p.installed .docker && p.running .docker then
        some ContainerRuntime.docker
      else if p.installed .podman && p.running .podman then
        some ContainerRuntime.podman
      else none) := by
  have hd : prefStep p none .docker =
      (if p.installed .docker && p.running .docker then
        some ContainerRuntime.docker
      else none) := by
    by_cases h1 : p.installed ContainerRuntime.docker <;>
      by_cases h2 : p.running ContainerRuntime.docker <;>
        simp [prefStep, prefUpdate, h1, h2]
  have hp : prefStep p none .podman =
      (if p.installed .podman && p.running .podman then
        some ContainerRuntime.podman
      else none) := by
    by_cases h1 : p.installed ContainerRuntime.podman <;>
      by_cases h2 : p.running ContainerRuntime.podman <;>
        simp [prefStep, prefUpdate, h1, h2]
  cases h1 : (p.installed ContainerRuntime.docker &&
      p.running ContainerRuntime.docker) <;>
    cases h2 : (p.installed ContainerRuntime.podman &&
        p.running ContainerRuntime.podman) <;>
      simp [allRuntimes, hd, hp, h1, h2, foldl_prefStep_some, prefStep_some,
        prefStep_other p _ ContainerRuntime.minikube rfl,
        prefStep_other p _ ContainerRuntime.kubernetes rfl,
        prefStep_other p _ ContainerRuntime.dockerCompose rfl,
        prefStep_other p _ ContainerRuntime.containerd rfl,
        prefStep_other p _ ContainerRuntime.criO rfl,
        prefStep_other p _ ContainerRuntime.nerdctl rfl,
        prefStep_other p _ ContainerRuntime.colima rfl]

theorem head?_filter_eq_find? (f : ContainerRuntime → Bool)
    (l : List ContainerRuntime) : (l.filter f).head? = l.find? f := by
  induction l with
  | nil => rfl
  | cons r rest ih =>
    by_cases h : f r <;> simp [List.filter_cons, List.find?, h, ih]

/-! ## Supporting lemmas: health polling -/

/-- With a probe that never reports healthy, the polling loop started at
iteration `i` terminates by hitting the deadline, after poll number
`max i (timeout / 2 + 1) + 1`. -/
theorem waitLoop_unhealthy (c : Nat → HealthSt) (t : Nat)
    (h : ∀ j, (c j).is_healthy = false) :
    ∀ μ i, t + 1 - 2 * i ≤ μ →
      waitLoop c t i = .timedOut (max i (t / 2 + 1) + 1) := by
  intro μ
  induction μ with
  | zero =>
    intro i hi
    rw [waitLoop]
    have hgt : 2 * i > t := by omega
    have hmax : max i (t / 2 + 1) = i := by omega
    simp [h i, hgt, hmax]
  | succ n ih =>
    intro i hi
    rw [waitLoop]
    by_cases hgt : 2 * i > t
    · have hmax : max i (t / 2 + 1) = i := by omega
      simp [h i, hgt, hmax]
    · have hrec := ih (i + 1) (by omega)
      have hmax : max (i + 1) (t / 2 + 1) = max i (t / 2 + 1) := by omega
      simp [h i, hgt, hrec, hmax]

/-! ## Claim C1 -/

/-- C1, counterexample: with Minikube installed but not running and
Kubernetes installed and running (Docker and Podman absent), the claimed
policy prefers Kubernetes — the first engine in priority order that is both
installed and running — but `detect_runtimes` returns Minikube, the first
merely-installed engine, because only the Docker and Podman arms of the
loop can ever set the preferred runtime. -/
theorem claim_C1_counterexample :
    detect_runtimes
        ⟨fun r => match r with
          | .minikube => true
          | .kubernetes => true
          | _ => false,
         fun r => match r with
          | .kubernetes => true
          | _ => false⟩ = .ok .minikube ∧
    specPreferred
        ⟨fun r => match r with
          | .minikube => true
          | .kubernetes => true
          | _ => false,
         fun r => match r with
          | .kubernetes => true
          | _ => false⟩ = some .kubernetes ∧
    ContainerRuntime.minikube ≠ ContainerRuntime.kubernetes :=
  ⟨rfl, rfl, by decide⟩

/-- C1, amended: runtime discovery prefers Docker when it is installed and
running, else Podman when it is installed and running, else the first
installed engine in probe order regardless of running state (no other
engine is ever promoted for being installed and running); when nothing is
installed it fails with the engine-unavailable error. -/
theorem claim_C1_amended (p : Probe) :
    detect_runtimes p =
      (match codePreferred p with
       | some r => Except.ok r
       | none => Except.error noRuntimeMsg) := by
  unfold detect_runtimes codePreferred
  simp only [detectLoop_eq, List.nil_append, foldl_prefStep_allRuntimes]
  rw [← head?_filter_eq_find? (fun r => p.installed r) allRuntimes]
  cases hf : allRuntimes.filter (fun r => p.installed r) with
  | nil =>
    have hdock : (p.installed ContainerRuntime.docker &&
        p.running ContainerRuntime.docker) = false := by
      cases hI : p.installed ContainerRuntime.docker
      · simp
      · exfalso
        have hmem : ContainerRuntime.docker ∈
            allRuntimes.filter (fun r => p.installed r) :=
          List.mem_filter.mpr ⟨by decide, hI⟩
        rw [hf] at hmem
        simp at hmem
    have hpod : (p.installed ContainerRuntime.podman &&
        p.running ContainerRuntime.podman) = false := by
      cases hI : p.installed ContainerRuntime.podman
      · simp
      · exfalso
        have hmem : ContainerRuntime.podman ∈
            allRuntimes.filter (fun r => p.installed r) :=
          List.mem_filter.mpr ⟨by decide, hI⟩
        rw [hf] at hmem
        simp at hmem
    simp [hdock, hpod]
  | cons first restf =>
    cases h1 : (p.installed ContainerRuntime.docker &&
        p.running ContainerRuntime.docker) <;>
      cases h2 : (p.installed ContainerRuntime.podman &&
          p.running ContainerRuntime.podman) <;>
        simp [h1, h2]

/-! ## Claim C2 -/

/-- A pair present in the credential map appears as its `key=value` line in
the saved file. -/
theorem mem_saveLines {m : Creds} {k v : Str} (h : (k, v) ∈ m) :
    (k ++ '=' :: v) ∈ saveLines m := by
  unfold saveLines
  refine List.mem_cons_of_mem _ (List.mem_cons_of_mem _ (List.mem_cons_of_mem _ ?_))
  exact List.mem_map.mpr ⟨(k, v), h, rfl⟩

/-- When the key is already stored, `get_or_generate` returns the stored
value and leaves the map unchanged, for every generator. -/
theorem get_or_generate_stable (m : Creds) (key : Str) (g : Unit → Str)
    (v : Str) (h : getCred m key = some v) :
    get_or_generate m key g = (v, m) := by
  unfold get_or_generate
  rw [h]

/-- C2, counterexample: on a fresh store with no credential file, the
generating call `getOrGenerate` returns the new value and stores it in the
in-memory map, but performs no write: immediately after the call the
persisted file still does not exist, so it does not contain the new
`key=value` pair — the claimed write-through inside `getOrGenerate` does
not happen there. -/
theorem claim_C2_counterexample :
    (getOrGenerateS ⟨[], none⟩ (String.toList "demo_POSTGRES_PASSWORD")
        (fun _ => String.toList "V")).1 = String.toList "V" ∧
    (getOrGenerateS ⟨[], none⟩ (String.toList "demo_POSTGRES_PASSWORD")
        (fun _ => String.toList "V")).2.file = none ∧
    persisted (getOrGenerateS ⟨[], none⟩
        (String.toList "demo_POSTGRES_PASSWORD")
        (fun _ => String.toList "V")).2
      (String.toList "demo_POSTGRES_PASSWORD") = none :=
  ⟨rfl, rfl, rfl⟩

/-- C2, amended: `getOrGenerate` updates only the in-memory map; the
persistence of the claim happens one call later in the orchestrator, which
invokes `save` immediately after each `getOrGenerate` inside
`get_service_env_vars`.  Saving right after the call does put the
`key=value` pair in the file (shown in general, and specifically for the
postgres branch of `get_service_env_vars`), and a key already present is
returned unchanged without consulting the generator. -/
theorem claim_C2_amended (s : StoreState) (key : Str) (gen : Unit → Str) :
    ((key ++ '=' :: (getOrGenerateS s key gen).1) ∈
      ((saveS (getOrGenerateS s key gen).2).file.getD [])) ∧
    ((serviceKey (String.toList "postgres")
          (String.toList "_POSTGRES_PASSWORD") ++ '=' ::
        (getOrGenerateS s (serviceKey (String.toList "postgres")
          (String.toList "_POSTGRES_PASSWORD")) gen).1) ∈
      ((get_service_env_vars s (String.toList "postgres") gen).2.file.getD [])) ∧
    (∀ v₀, getCred s.creds key = some v₀ →
      getOrGenerateS s key gen = (v₀, s)) := by
  refine ⟨?_, ?_, ?_⟩
  · simp only [saveS, getOrGenerateS, Option.getD_some]
    exact mem_saveLines (get_or_generate_pair_mem s.creds key gen)
  · rw [get_service_env_vars, if_pos rfl]
    simp only [saveS, getOrGenerateS, Option.getD_some]
    exact mem_saveLines (get_or_generate_pair_mem s.creds _ gen)
  · intro v₀ h
    simp [getOrGenerateS, get_or_generate_stable s.creds key gen v₀ h]

/-- C2, witness for the present-key part of the amended claim. -/
theorem claim_C2_amended_witness :
    getOrGenerateS ⟨[(String.toList "K", String.toList "V")], none⟩
        (String.toList "K") (fun _ => String.toList "W") =
      (String.toList "V",
        ⟨[(String.toList "K", String.toList "V")], none⟩) :=
  (claim_C2_amended ⟨[(String.toList "K", String.toList "V")], none⟩
      (String.toList "K") (fun _ => String.toList "W")).2.2
    (String.toList "V") rfl

/-! ## Claim C3 -/

/-- C3, counterexample: the round trip is not faithful for every key.  For
the key `A=B` the saved line `A=B=x` is re-parsed at its first `=` as the
pair `(A, B=x)`, so after a save and a reload the second `getOrGenerate`
misses the key and invokes its generator again, returning a different
value. -/
theorem claim_C3_counterexample :
    (get_or_generate
        (loadLines []
          (saveLines (get_or_generate [] (String.toList "A=B")
              (fun _ => String.toList "x")).2))
        (String.toList "A=B") (fun _ => String.toList "y")).1 ≠
      (get_or_generate [] (String.toList "A=B")
          (fun _ => String.toList "x")).1 := by
  decide

/-- C3, amended: for well-formed credentials — keys nonempty, free of
whitespace and `=`, not starting with `#`, values free of whitespace, as
all generated alphanumeric credentials are — a repeated `getOrGenerate`
returns the identical value for every second generator, both directly on
the in-memory map and across a save of the store and a reload of the saved
file by a fresh store. -/
theorem claim_C3_amended (m : Creds) (key : Str) (g₁ g₂ : Unit → Str)
    (hnd : (m.map Prod.fst).Nodup)
    (hwf : ∀ p ∈ m, wfKey p.1 ∧ wfVal p.2)
    (hk : wfKey key) (hv : wfVal (g₁ ())) :
    (get_or_generate (get_or_generate m key g₁).2 key g₂).1 =
      (get_or_generate m key g₁).1 ∧
    (get_or_generate (loadLines [] (saveLines (get_or_generate m key g₁).2))
        key g₂).1 = (get_or_generate m key g₁).1 := by
  have hnd₁ : ((get_or_generate m key g₁).2.map Prod.fst).Nodup := by
    unfold get_or_generate
    cases h : getCred m key with
    | some v => simpa using hnd
    | none => simpa using nodup_keys_insertCred m key (g₁ ()) hnd
  have hwf₁ : ∀ p ∈ (get_or_generate m key g₁).2, wfKey p.1 ∧ wfVal p.2 := by
    unfold get_or_generate
    cases h : getCred m key with
    | some v =>
      intro p hp
      exact hwf p (by simpa using hp)
    | none =>
      intro p hp
      simp only at hp
      rcases mem_insertCred_elim hp with hp | hp
      · exact hwf p hp
      · subst hp; exact ⟨hk, hv⟩
  have h₂ := getCred_after_get_or_generate m key g₁
  constructor
  · rw [get_or_generate_stable _ _ g₂ _ h₂]
  · rw [loadLines_saveLines _ hnd₁ hwf₁, get_or_generate_stable _ _ g₂ _ h₂]

/-- C3, witness: a concrete fresh key generated once returns the same value
again across a save and reload even under a different second generator. -/
theorem claim_C3_amended_witness :
    (get_or_generate (get_or_generate [] (String.toList "K")
        (fun _ => String.toList "v")).2 (String.toList "K")
        (fun _ => String.toList "w")).1 =
      (get_or_generate [] (String.toList "K")
          (fun _ => String.toList "v")).1 ∧
    (get_or_generate (loadLines [] (saveLines (get_or_generate []
        (String.toList "K") (fun _ => String.toList "v")).2))
        (String.toList "K") (fun _ => String.toList "w")).1 =
      (get_or_generate [] (String.toList "K")
          (fun _ => String.toList "v")).1 :=
  claim_C3_amended [] (String.toList "K") (fun _ => String.toList "v")
    (fun _ => String.toList "w") (by simp) (by simp)
    (by unfold wfKey; decide) (by unfold wfVal; decide)

/-! ## Claim C4 -/

/-- C4, code bug: `start_service` names the container
`{project}_{service}` (underscore), but the lookup of `get_container_id` —
the one used by logs, exec, stats and restart — matches only an exact name
or a `-{service}` suffix (hyphen).  At the failing input project `myapp`,
service `postgres`, the created container `myapp_postgres` is rejected by
the matcher and the lookup fails with the not-found error instead of
locating the container. -/
theorem claim_C4_bug :
    container_name (String.toList "myapp") (String.toList "postgres") =
      String.toList "myapp_postgres" ∧
    matchesService (trimLeadingSlashes (String.toList "/myapp_postgres"))
      (String.toList "postgres") = false ∧
    get_container_id
        [⟨[String.toList "/myapp_postgres"],
          some (String.toList "cid123")⟩]
        (String.toList "postgres") =
      .error (notFoundMsg (String.toList "postgres")) :=
  ⟨rfl, rfl, rfl⟩

/-! ## Claim C5 -/

/-- Binary digit strings are pairwise distinct names. -/
theorem bitChars_inj {m n : Nat} (h : bitChars m = bitChars n) : m = n := by
  have hd : Nat.digits 2 m = Nat.digits 2 n :=
    map01_inj _ _ (fun x hx => Nat.digits_lt_base (by omega) hx)
      (fun x hx => Nat.digits_lt_base (by omega) hx) h
  calc m = Nat.ofDigits 2 (Nat.digits 2 m) := (Nat.ofDigits_digits 2 m).symm
    _ = Nat.ofDigits 2 (Nat.digits 2 n) := by rw [hd]
    _ = n := Nat.ofDigits_digits 2 n

/-- The 60537 names of the counterexample configuration are distinct. -/
theorem cexServiceNames_nodup : cexServiceNames.Nodup := by
  refine (List.nodup_range 60537).map_on ?_
  intro x _ y _ hxy
  simp only [List.cons.injEq, true_and] at hxy
  exact bitChars_inj hxy

/-- C5, counterexample: the port counter is a `u16`, so the claim's
universal quantification over every configuration fails once the counter
passes 65535.  In the concrete configuration of 60537 pairwise distinct
declared services, the last service is assigned the wrapped host port
`(5000 + 60536) % 2^16 = 0`, below the base port 5000 (a debug build
panics on the overflowing increment instead). -/
theorem claim_C5_counterexample :
    ('s' :: bitChars 60536) ∈ cexServiceNames ∧
    cexServiceNames.Nodup ∧
    getPort (allocate_ports cexServiceNames []) ('s' :: bitChars 60536) =
      some 0 ∧
    ¬(5000 ≤ 0) := by
  have hlen : cexServiceNames.length = 60537 := by
    simp [cexServiceNames]
  have hidx : (60536 : Nat) < cexServiceNames.length := by
    rw [hlen]; omega
  have hget : cexServiceNames.get ⟨60536, hidx⟩ = 's' :: bitChars 60536 := by
    simp [cexServiceNames]
  have hnd := cexServiceNames_nodup
  refine ⟨?_, hnd, ?_, by omega⟩
  · rw [← hget]
    exact List.get_mem ..
  · have hc := allocateFrom_get cexServiceNames hnd 5000 [] (by omega)
      60536 hidx
    rw [hget] at hc
    unfold allocate_ports
    rw [hc]

/-- C5, amended: for every configuration of at most 60536 distinct
declared services — so that the `u16` port counter does not wrap —
`build`'s port allocation gives every declared service a port, all ports
are at least the base port 5000 and pairwise distinct, and running the
allocation a second time over the allocation map it produced reassigns
every still-declared service the same port it already holds. -/
theorem claim_C5_amended (services : List Str) (m : Ports)
    (hnd : services.Nodup) (hlen : services.length ≤ 60536) :
    (∀ n ∈ services, ∃ port,
        getPort (allocate_ports services m) n = some port ∧ 5000 ≤ port) ∧
    (∀ n₁ ∈ services, ∀ n₂ ∈ services, n₁ ≠ n₂ →
        getPort (allocate_ports services m) n₁ ≠
          getPort (allocate_ports services m) n₂) ∧
    (∀ n ∈ services,
        getPort (allocate_ports services (allocate_ports services m)) n =
          getPort (allocate_ports services m) n) := by
  have hchar : ∀ (m₂ : Ports) (i : Nat) (h : i < services.length),
      getPort (allocate_ports services m₂) (services.get ⟨i, h⟩) =
        some (5000 + i) := by
    intro m₂ i h
    have hc := allocateFrom_get services hnd 5000 m₂ (by omega) i h
    unfold allocate_ports
    rw [hc, Nat.mod_eq_of_lt (by omega)]
  refine ⟨?_, ?_, ?_⟩
  · intro n hn
    obtain ⟨⟨i, hi⟩, rfl⟩ := List.mem_iff_get.mp hn
    exact ⟨5000 + i, hchar m i hi, by omega⟩
  · intro n₁ h₁ n₂ h₂ hne
    obtain ⟨⟨i₁, hi₁⟩, rfl⟩ := List.mem_iff_get.mp h₁
    obtain ⟨⟨i₂, hi₂⟩, rfl⟩ := List.mem_iff_get.mp h₂
    rw [hchar m i₁ hi₁, hchar m i₂ hi₂]
    intro hcon
    have heq : i₁ = i₂ := by
      have h5 := hcon
      simp only [Option.some.injEq] at h5
      omega
    subst heq
    exact hne rfl
  · intro n hn
    obtain ⟨⟨i, hi⟩, rfl⟩ := List.mem_iff_get.mp hn
    rw [hchar m i hi, hchar (allocate_ports services m) i hi]

/-- C5, witness: the spec's two-service scenario — postgres and redis get
ports, the ports differ, and a second allocation run is stable. -/
theorem claim_C5_amended_witness :
    (∃ port, getPort (allocate_ports
        [String.toList "postgres", String.toList "redis"] [])
        (String.toList "postgres") = some port ∧ 5000 ≤ port) ∧
    getPort (allocate_ports
        [String.toList "postgres", String.toList "redis"] [])
      (String.toList "postgres") ≠
      getPort (allocate_ports
          [String.toList "postgres", String.toList "redis"] [])
        (String.toList "redis") ∧
    getPort (allocate_ports [String.toList "postgres", String.toList "redis"]
        (allocate_ports [String.toList "postgres", String.toList "redis"] []))
      (String.toList "redis") =
      getPort (allocate_ports
          [String.toList "postgres", String.toList "redis"] [])
        (String.toList "redis") :=
  ⟨(claim_C5_amended [String.toList "postgres", String.toList "redis"] []
      (by decide) (by decide)).1 (String.toList "postgres") (by decide),
   (claim_C5_amended [String.toList "postgres", String.toList "redis"] []
      (by decide) (by decide)).2.1 (String.toList "postgres") (by decide)
     (String.toList "redis") (by decide) (by decide),
   (claim_C5_amended [String.toList "postgres", String.toList "redis"] []
      (by decide) (by decide)).2.2 (String.toList "redis") (by decide)⟩

/-! ## Claim C6 -/

/-- C6, counterexample: the claimed poll bound of timeout divided by
interval plus one fails at the boundary.  With a probe that never reports
healthy and a four-second timeout (two polling intervals), the loop polls
at elapsed 0, 2, 4 and 6 seconds — four polls, while the claimed bound is
4 / 2 + 1 = 3. -/
theorem claim_C6_counterexample :
    waitLoop (fun _ => ⟨String.toList "db", false, String.toList "down"⟩)
        4 0 = .timedOut 4 ∧ ¬(4 ≤ 4 / 2 + 1) := by
  constructor
  · have h := waitLoop_unhealthy
      (fun _ => ⟨String.toList "db", false, String.toList "down"⟩) 4
      (fun _ => rfl) 5 0 (by omega)
    simpa using h
  · decide

/-- C6, amended: with a probe that never reports healthy, `waitForHealthy`
is no infinite loop: the polling loop issues exactly
`timeout / interval + 2` polls (interval 2 seconds, checks instantaneous)
and terminates with the `HealthCheckTimeout` error. -/
theorem claim_C6_amended (service : Str) (c : Nat → HealthSt) (t : Nat)
    (h : ∀ j, (c j).is_healthy = false) :
    waitLoop c t 0 = .timedOut (t / 2 + 2) ∧
    wait_for_healthy service c t = .error (timeoutMsg service) := by
  have hw := waitLoop_unhealthy c t h (t + 1) 0 (by omega)
  have hmax : max 0 (t / 2 + 1) + 1 = t / 2 + 2 := by omega
  rw [hmax] at hw
  refine ⟨hw, ?_⟩
  unfold wait_for_healthy
  rw [hw]

/-- C6, witness: the spec's three-interval scenario, timeout six seconds. -/
theorem claim_C6_amended_witness :
    waitLoop (fun _ => ⟨String.toList "db", false, String.toList "starting"⟩)
        6 0 = .timedOut (6 / 2 + 2) ∧
    wait_for_healthy (String.toList "db")
        (fun _ => ⟨String.toList "db", false, String.toList "starting"⟩) 6 =
      .error (timeoutMsg (String.toList "db")) :=
  claim_C6_amended (String.toList "db")
    (fun _ => ⟨String.toList "db", false, String.toList "starting"⟩) 6
    (fun _ => rfl)

/-! ## Claim C7 -/

/-- When no listed container name matches the requested service,
`get_container_id` fails with the not-found error. -/
theorem get_container_id_notFound (entries : List ContainerEntry)
    (service : Str)
    (h : ∀ c ∈ entries, ∀ nm ∈ c.names,
        matchesService (trimLeadingSlashes nm) service = false) :
    get_container_id entries service = .error (notFoundMsg service) := by
  induction entries with
  | nil => rfl
  | cons c rest ih =>
    have hfind : c.names.find?
        (fun n => matchesService (trimLeadingSlashes n) service) = none :=
      List.find?_eq_none.mpr
        (fun n hn => by simp [h c (List.mem_cons_self c rest) n hn])
    simp only [get_container_id, hfind]
    exact ih (fun c₂ hc₂ => h c₂ (List.mem_cons_of_mem _ hc₂))

/-- C7, counterexample: restarting a service whose container does not exist
is not a no-op success — `restart_service` resolves the container through
`get_container_id` and propagates its not-found error. -/
theorem claim_C7_counterexample :
    restart_service [] (String.toList "postgres") .ok .ok =
      .error (notFoundMsg (String.toList "postgres")) := rfl

/-- C7, amended: `stop_service` on a nonexistent container is a no-op
success (the engine's "No such container" error is swallowed), but
`restart_service` on a service with no matching container fails with the
not-found error of the container lookup instead of succeeding. -/
theorem claim_C7_amended (containers : List Str)
    (entries : List ContainerEntry) (project service : Str)
    (h₁ : containers.contains (container_name project service) = false)
    (h₂ : ∀ c ∈ entries, ∀ nm ∈ c.names,
        matchesService (trimLeadingSlashes nm) service = false)
    (stopR startR : EngineResp) :
    stop_service containers project service = .ok () ∧
    restart_service entries service stopR startR =
      .error (notFoundMsg service) := by
  constructor
  · have hcontains : containsStr (String.toList "No such container")
        (String.toList "No such container: " ++
          container_name project service) = true := by
      have hdecomp : String.toList "No such container: " =
          String.toList "No such container" ++ String.toList ": " := by decide
      rw [hdecomp, List.append_assoc]
      exact containsStr_of_startsWith _ _ (startsWithStr_append_self _ _)
    have hstop : dockerStop containers (container_name project service) =
        .err (String.toList "No such container: " ++
          container_name project service) := by
      unfold dockerStop
      rw [h₁]
      simp
    unfold stop_service
    rw [hstop]
    show (if containsStr (String.toList "No such container")
        (String.toList "No such container: " ++
          container_name project service) = true then Except.ok ()
      else Except.error (String.toList "Failed to stop container: " ++
        (String.toList "No such container: " ++
          container_name project service))) = Except.ok ()
    rw [if_pos hcontains]
  · have hid := get_container_id_notFound entries service h₂
    unfold restart_service
    rw [hid]
    rfl

/-- C7, witness: with no containers at all, stop succeeds and restart
fails with the not-found error. -/
theorem claim_C7_amended_witness :
    stop_service [] (String.toList "myapp") (String.toList "db") = .ok () ∧
    restart_service [] (String.toList "db") .ok .ok =
      .error (notFoundMsg (String.toList "db")) :=
  claim_C7_amended [] [] (String.toList "myapp") (String.toList "db") rfl
    (by simp) .ok .ok

/-! ## Claim C8 -/

/-- C8: `create_network` is idempotent — whatever the engine's network
state, the call succeeds, a second call succeeds as well and leaves the
engine's network list exactly as the first call left it (no duplicate is
created, because a duplicate request draws the "already exists" error,
which is mapped to success) — while every engine error not containing
"already exists" propagates as a network-creation failure. -/
theorem claim_C8 (networks : List Str) (project : Str) :
    (∀ e, containsStr (String.toList "already exists") e = false →
        handleCreateNetwork (.err e) =
          .error (String.toList "Failed to create Docker network: " ++ e)) ∧
    (create_network networks project).1 = .ok () ∧
    (create_network (create_network networks project).2 project).1 =
      .ok () ∧
    (create_network (create_network networks project).2 project).2 =
      (create_network networks project).2 := by
  have hmsg : ∀ name : Str, containsStr (String.toList "already exists")
      (String.toList "network with name " ++ name ++
        String.toList " already exists") = true := by
    intro name
    have hdecomp : String.toList " already exists" =
        [' '] ++ String.toList "already exists" := by decide
    rw [hdecomp,
      show String.toList "network with name " ++ name ++
          ([' '] ++ String.toList "already exists") =
        (String.toList "network with name " ++ name ++ [' ']) ++
          String.toList "already exists" by simp [List.append_assoc]]
    exact containsStr_append_right _ _
  have hdup : ∀ name : Str, handleCreateNetwork
      (.err (String.toList "network with name " ++ name ++
        String.toList " already exists")) = .ok () := by
    intro name
    simp only [handleCreateNetwork]
    rw [if_pos (hmsg name)]
  refine ⟨?_, ?_⟩
  · intro e he
    simp only [handleCreateNetwork]
    rw [if_neg]
    intro hcon
    rw [he] at hcon
    exact absurd hcon (by decide)
  cases hc : networks.contains (network_name project) with
  | false =>
    have h₁ : create_network networks project =
        (.ok (), networks ++ [network_name project]) := by
      unfold create_network dockerCreateNetwork
      rw [hc]
      rfl
    have hc₂ : (networks ++ [network_name project]).contains
        (network_name project) = true := by simp
    have h₂ : create_network (networks ++ [network_name project]) project =
        (.ok (), networks ++ [network_name project]) := by
      unfold create_network dockerCreateNetwork
      rw [hc₂]
      show (handleCreateNetwork (.err (String.toList "network with name " ++
          network_name project ++ String.toList " already exists")),
        networks ++ [network_name project]) =
        (Except.ok (), networks ++ [network_name project])
      rw [hdup]
    rw [h₁, h₂]
    exact ⟨rfl, rfl, rfl⟩
  | true =>
    have h₁ : create_network networks project = (.ok (), networks) := by
      unfold create_network dockerCreateNetwork
      rw [hc]
      show (handleCreateNetwork (.err (String.toList "network with name " ++
          network_name project ++ String.toList " already exists")),
        networks) = (Except.ok (), networks)
      rw [hdup]
    rw [h₁, h₁]
    exact ⟨rfl, rfl, rfl⟩

/-- C8, witness: a fresh engine with no networks — both calls succeed —
and a non-duplicate engine error propagates. -/
theorem claim_C8_witness :
    handleCreateNetwork (.err (String.toList "permission denied")) =
      .error (String.toList "Failed to create Docker network: " ++
        String.toList "permission denied") ∧
    (create_network [] (String.toList "demo")).1 = .ok () ∧
    (create_network (create_network [] (String.toList "demo")).2
        (String.toList "demo")).1 = .ok () :=
  ⟨(claim_C8 [] (String.toList "demo")).1
      (String.toList "permission denied") (by decide),
   (claim_C8 [] (String.toList "demo")).2.1,
   (claim_C8 [] (String.toList "demo")).2.2.1⟩

/-! ## Claim C9 -/

/-- C9: whenever the inspected container state is anything other than
running, `check_container` returns the not-running outcome — unhealthy with
the container-not-running message — regardless of the native health block
and of the service probe outcome: the running test is decided before any
health information is consulted. -/
theorem claim_C9 (service : Str) (status : Option Str)
    (health : Option (Option Str)) (exec : ExecOutcome)
    (h : status.getD (String.toList "Unknown") ≠ String.toList "Running") :
    check_container service (.ok status health) exec =
      .ok ⟨service, false, String.toList "Container not running: " ++
        status.getD (String.toList "Unknown")⟩ := by
  simp only [check_container]
  rw [if_pos h]

/-- C9, witness: an exited container that still declares a healthy native
status is reported not running, not healthy. -/
theorem claim_C9_witness :
    check_container (String.toList "postgres")
        (.ok (some (String.toList "Exited"))
          (some (some (String.toList "Healthy")))) .detached =
      .ok ⟨String.toList "postgres", false,
        String.toList "Container not running: " ++
          (some (String.toList "Exited")).getD (String.toList "Unknown")⟩ :=
  claim_C9 (String.toList "postgres") (some (String.toList "Exited"))
    (some (some (String.toList "Healthy"))) .detached (by decide)

/-! ## Claim C10 -/

/-- C10: `check_container` is total over its error surface — for every
inspection outcome and every probe outcome it returns `Ok` with some
status, inspection and probe failures being encoded in the returned status
— and consequently the only error `wait_for_healthy` can return is the
health-check timeout message. -/
theorem claim_C10 (service : Str) (insp : Inspection) (exec : ExecOutcome)
    (c : Nat → HealthSt) (t : Nat) :
    (∃ st, check_container service insp exec = .ok st) ∧
    (∀ e, wait_for_healthy service c t = .error e → e = timeoutMsg service) := by
  constructor
  · cases insp with
    | failed e => exact ⟨_, rfl⟩
    | ok status health =>
      by_cases hrun : status.getD (String.toList "Unknown") ≠
          String.toList "Running"
      · exact ⟨_, by simp only [check_container]; rw [if_pos hrun]⟩
      · cases health with
        | some hstatus =>
          exact ⟨_, by simp only [check_container]; rw [if_neg hrun]⟩
        | none =>
          cases hp : perform_service_health_check service exec with
          | ok msg =>
            exact ⟨_, by simp only [check_container]; rw [if_neg hrun, hp]⟩
          | error e =>
            exact ⟨_, by simp only [check_container]; rw [if_neg hrun, hp]⟩
  · intro e
    unfold wait_for_healthy
    cases hw : waitLoop c t 0 with
    | healthy st n =>
      intro hh
      simp at hh
    | timedOut n =>
      intro hh
      simp only [Except.error.injEq] at hh
      exact hh.symm

/-- C10, witness: an inspection failure still yields an `Ok` status, and a
never-healthy probe with a zero timeout produces exactly the timeout
message. -/
theorem claim_C10_witness :
    (∃ st, check_container (String.toList "db")
        (.failed (String.toList "socket closed")) .detached = .ok st) ∧
    (∃ e, wait_for_healthy (String.toList "db")
        (fun _ => ⟨String.toList "db", false, String.toList "down"⟩) 0 =
          .error e ∧ e = timeoutMsg (String.toList "db")) := by
  have hw : wait_for_healthy (String.toList "db")
      (fun _ => ⟨String.toList "db", false, String.toList "down"⟩) 0 =
      .error (timeoutMsg (String.toList "db")) := by
    have h := waitLoop_unhealthy
      (fun _ => ⟨String.toList "db", false, String.toList "down"⟩) 0
      (fun _ => rfl) 1 0 (by omega)
    unfold wait_for_healthy
    rw [h]
  exact ⟨(claim_C10 (String.toList "db")
      (.failed (String.toList "socket closed")) .detached
      (fun _ => ⟨String.toList "db", false, String.toList "down"⟩) 0).1,
    ⟨timeoutMsg (String.toList "db"), hw,
      (claim_C10 (String.toList "db")
        (.failed (String.toList "socket closed")) .detached
        (fun _ => ⟨String.toList "db", false, String.toList "down"⟩) 0).2
        (timeoutMsg (String.toList "db")) hw⟩⟩

end ZC
